import Mathlib

/-!
Shallow embedding of the LenqReader client-side rendering and caching engine,
together with theorems about the behaviour of the embedded operations.

The embedded components are:
* the LRU image cache of the `useImageCache` hook (keys `page-quality`,
  count and byte budgets enforced after every `set` by evicting the
  least-recently-used entry);
* the prefetch scheduler of the `usePreloader` hook (`calculatePriority`,
  `buildQueue`);
* the reader state reducer of `ReaderContext` and the zoom controls of
  `useImageReader`;
* the hotspot pipelines (`loadArticleHotspots` in `ModernPDFReader`, the
  `reader-manifest` edge function's hotspot list, the `HotspotOverlay`);
* the `RenderQueue` serializer, the `RenderCache`, and the `renderPage`
  duplicate-render suppression of `ModernPDFReader`.

JavaScript numbers carrying page indices are embedded as `Int`, geometry and
zoom values as `ℚ`, byte counts and timestamps as `Nat`.  `Date.now()` is
threaded through the cache operations as an explicit `now` argument.
-/

namespace LenqReader

/-! ### Image cache (`useImageCache` hook, unnamed part_005)

The JavaScript cache is a `Map<string, CacheEntry>`; we embed it as a list
of key/entry pairs in insertion order (the iteration order of a JS `Map`).
Decoded `HTMLImageElement` handles are embedded as opaque `Nat` ids. -/

inductive ImageQuality where
  | low
  | medium
  | high
deriving DecidableEq, Repr

def qualityText : ImageQuality → String
  | .low => "low"
  | .medium => "medium"
  | .high => "high"

structure CacheEntry where
  image : Nat
  quality : ImageQuality
  loadedAt : Nat
  sizeBytes : Nat
  accessCount : Nat
  lastAccessed : Nat
deriving DecidableEq, Repr

structure CacheStats where
  hits : Nat
  misses : Nat
  evictions : Nat
  totalBytesLoaded : Nat
deriving DecidableEq, Repr

structure ImageCache where
  entries : List (String × CacheEntry)
  stats : CacheStats
deriving DecidableEq, Repr

def emptyStats : CacheStats := ⟨0, 0, 0, 0⟩

def emptyCache : ImageCache := ⟨[], emptyStats⟩

/-- `getCacheKey(page, quality)` returns the template string `page-quality`. -/
def getCacheKey (page : Nat) (quality : ImageQuality) : String :=
  toString page ++ "-" ++ qualityText quality

/-- `getTotalCacheSize`: sums `entry.sizeBytes` over all resident entries. -/
def getTotalCacheSize (entries : List (String × CacheEntry)) : Nat :=
  entries.foldl (fun total e => total + e.2.sizeBytes) 0

/-- The scan inside `evictLRU`: walk the remaining entries carrying the best
(oldest) `lastAccessed` seen so far, its index, and the current index; an entry
replaces the best only when its `lastAccessed` is strictly smaller (the JS
comparison `entry.lastAccessed < oldestTime`).  The scan starts from the first
entry, whose time always beats the initial `Infinity`. -/
def lruScan : List (String × CacheEntry) → Nat → Nat → Nat → Nat
  | [], _, bestIdx, _ => bestIdx
  | e :: rest, bestTime, bestIdx, idx =>
      if e.2.lastAccessed < bestTime then
        lruScan rest e.2.lastAccessed idx (idx + 1)
      else
        lruScan rest bestTime bestIdx (idx + 1)

/-- Index of the entry `evictLRU` removes: the first entry holding the minimal
`lastAccessed` in iteration order. -/
def lruIndex : List (String × CacheEntry) → Nat
  | [] => 0
  | e :: rest => lruScan rest e.2.lastAccessed 0 1

/-- `evictLRU`: if the cache is nonempty, delete the least-recently-used entry
and count one eviction. -/
def evictLRU (c : ImageCache) : ImageCache :=
  if c.entries.isEmpty then c
  else
    { entries := c.entries.eraseIdx (lruIndex c.entries)
      stats := { c.stats with evictions := c.stats.evictions + 1 } }

/-- First loop of `enforceCapacity`: `while (size > maxEntries) evictLRU()`.
The loop is embedded with explicit fuel; every iteration removes one entry, so
any fuel of at least `entries.length` realises the full `while` loop. -/
def enforceEntryCapLoop : Nat → Nat → ImageCache → ImageCache
  | 0, _, c => c
  | fuel + 1, maxEntries, c =>
      if maxEntries < c.entries.length then
        enforceEntryCapLoop fuel maxEntries (evictLRU c)
      else c

/-- Second loop of `enforceCapacity`:
`while (getTotalCacheSize() > maxSizeBytes && size > 0) evictLRU()`,
again with fuel bounded below by the entry count. -/
def enforceSizeCapLoop : Nat → Nat → ImageCache → ImageCache
  | 0, _, c => c
  | fuel + 1, maxSizeBytes, c =>
      if maxSizeBytes < getTotalCacheSize c.entries ∧ 0 < c.entries.length then
        enforceSizeCapLoop fuel maxSizeBytes (evictLRU c)
      else c

/-- `enforceCapacity()`: the count loop, then the byte loop. -/
def enforceCapacity (maxEntries maxSizeBytes : Nat) (c : ImageCache) : ImageCache :=
  let afterCount := enforceEntryCapLoop c.entries.length maxEntries c
  enforceSizeCapLoop afterCount.entries.length maxSizeBytes afterCount

/-- `Map.delete(key)`: remove the entry with the given key (keys are unique in
a JS `Map`, so removing the first occurrence is exact). -/
def cacheDelete (key : String) (entries : List (String × CacheEntry)) :
    List (String × CacheEntry) :=
  entries.eraseP (fun p => p.1 == key)

/-- `get(page, quality)`: a miss counts a miss and returns `null`; a hit bumps
`accessCount`, refreshes `lastAccessed` to `Date.now()`, moves the entry to
the end of the map (delete + re-insert), counts a hit and returns the image. -/
def ImageCache.get (c : ImageCache) (page : Nat) (quality : ImageQuality) (now : Nat) :
    Option Nat × ImageCache :=
  let key := getCacheKey page quality
  match c.entries.find? (fun p => p.1 == key) with
  | none =>
      (none, { c with stats := { c.stats with misses := c.stats.misses + 1 } })
  | some (_, entry) =>
      let entry1 := { entry with accessCount := entry.accessCount + 1, lastAccessed := now }
      (some entry1.image,
       { entries := cacheDelete key c.entries ++ [(key, entry1)]
         stats := { c.stats with hits := c.stats.hits + 1 } })

/-- `set(page, quality, image, sizeBytes)`: delete an existing entry under the
key, install a fresh entry (timestamps `Date.now()`, `accessCount = 1`) at the
end, add to `totalBytesLoaded`, then `enforceCapacity()`.  `maxEntries` and
`maxSizeBytes` are the hook's configuration (defaults 10 entries, 100MB). -/
def ImageCache.set (c : ImageCache) (page : Nat) (quality : ImageQuality)
    (image : Nat) (sizeBytes : Nat) (now : Nat) (maxEntries maxSizeBytes : Nat) :
    ImageCache :=
  let key := getCacheKey page quality
  let entries :=
    if c.entries.any (fun p => p.1 == key) then cacheDelete key c.entries else c.entries
  let entry : CacheEntry :=
    { image := image, quality := quality, loadedAt := now, sizeBytes := sizeBytes
      accessCount := 1, lastAccessed := now }
  enforceCapacity maxEntries maxSizeBytes
    { entries := entries ++ [(key, entry)]
      stats := { c.stats with totalBytesLoaded := c.stats.totalBytesLoaded + sizeBytes } }

/-- `has(page, quality)`. -/
def ImageCache.has (c : ImageCache) (page : Nat) (quality : ImageQuality) : Bool :=
  c.entries.any (fun p => p.1 == getCacheKey page quality)

/-- `clear()`: drop every entry and reset the statistics. -/
def ImageCache.clear (_c : ImageCache) : ImageCache :=
  { entries := [], stats := emptyStats }

/-! ### Prefetch scheduler (`usePreloader` hook in `useImageReader.ts`)

Page numbers are embedded as `Int` because the JS arithmetic
`currentPage - 1`, `currentPage - i` may leave `[1, totalPages]`. -/

inductive Priority where
  | high
  | medium
  | low
deriving DecidableEq, Repr

structure PreloadTask where
  page : Int
  quality : ImageQuality
  priority : Priority
deriving DecidableEq, Repr

/-- `calculatePriority(page, currentPage)`: distance 0 or 1 gives `high`,
distance at most 2 gives `medium`, anything farther gives `low`. -/
def calculatePriority (page currentPage : Int) : Priority :=
  let distance := (page - currentPage).natAbs
  if distance = 0 then .high
  else if distance = 1 then .high
  else if distance ≤ 2 then .medium
  else .low

/-- One guarded push inside `buildQueue`: a candidate page enters the queue
only when `page >= 1 && page <= totalPages && !visited.has(page)`; it is then
marked visited and appended with the supplied priority. -/
def pushCandidate (totalPages : Int) (quality : ImageQuality)
    (st : List Int × List PreloadTask) (page : Int) (priority : Priority) :
    List Int × List PreloadTask :=
  if 1 ≤ page ∧ page ≤ totalPages ∧ page ∉ st.1 then
    (page :: st.1, st.2 ++ [⟨page, quality, priority⟩])
  else st

/-- `buildQueue()`: empty unless a manifest is loaded and preloading is
enabled; otherwise the current page is pushed unconditionally with priority
`high`, then the adjacent pages `currentPage ± 1` (priority `high`), then the
pages `currentPage ± i` for `i = 2 .. distance` with `calculatePriority`. -/
def buildQueue (hasManifest enabled : Bool) (currentPage totalPages : Int)
    (quality : ImageQuality) (distance : Nat) : List PreloadTask :=
  if ¬hasManifest ∨ ¬enabled then []
  else
    let st0 : List Int × List PreloadTask :=
      ([currentPage], [⟨currentPage, quality, .high⟩])
    let st1 := [currentPage - 1, currentPage + 1].foldl
      (fun st page => pushCandidate totalPages quality st page .high) st0
    let st2 := (List.range' 2 (distance - 1)).foldl
      (fun st i =>
        [currentPage - (i : Int), currentPage + (i : Int)].foldl
          (fun st page =>
            pushCandidate totalPages quality st page (calculatePriority page currentPage))
          st)
      st1
    st2.2

/-! ### Reader state machine (`ReaderContext.tsx` reducer) and the
image reader's zoom controls (`useImageReader.ts`) -/

inductive ReaderStatus where
  | loading
  | ready
  | error
deriving DecidableEq, Repr

inductive ReaderMode where
  | page
  | article
deriving DecidableEq, Repr

structure ReaderState where
  status : ReaderStatus
  currentPage : Int
  totalPages : Int
  zoom : ℚ
  mode : ReaderMode
  activeArticleId : Option String
  error : Option String
deriving DecidableEq, Repr

def initialReaderState : ReaderState :=
  { status := .loading, currentPage := 1, totalPages := 0, zoom := 1
    mode := .page, activeArticleId := none, error := none }

inductive ReaderAction where
  | setReady (totalPages : Int)
  | setPage (page : Int)
  | setMode (mode : ReaderMode)
  | setActiveArticle (articleId : Option String)
  | setZoom (zoom : ℚ)
  | setError (message : String)
  | reset
deriving DecidableEq, Repr

/-- The `ReaderContext` reducer.  `SET_PAGE` clamps with
`Math.max(1, Math.min(payload, state.totalPages || 1))` (the JS `||` turns a
zero page count into 1); `SET_ZOOM` clamps with
`Math.max(0.5, Math.min(payload, 3))`. -/
def readerReducer (state : ReaderState) : ReaderAction → ReaderState
  | .setReady totalPages =>
      { state with
        status := .ready
        totalPages := totalPages
        currentPage := min state.currentPage (max 1 totalPages)
        error := none }
  | .setPage page =>
      { state with
        currentPage :=
          max 1 (min page (if state.totalPages = 0 then 1 else state.totalPages)) }
  | .setMode mode => { state with mode := mode }
  | .setActiveArticle articleId => { state with activeArticleId := articleId }
  | .setZoom zoom => { state with zoom := max (1 / 2) (min zoom 3) }
  | .setError message => { state with status := .error, error := some message }
  | .reset => initialReaderState

/-- The clamp inside `useImageReader`'s `setZoom`:
`Math.max(0.5, Math.min(5, newZoom))`. -/
def imageReaderClampZoom (zoom : ℚ) : ℚ :=
  max (1 / 2) (min 5 zoom)

/-- `zoomIn(step = 0.25)` delegates to `setZoom(z => z + step)`. -/
def imageReaderZoomIn (current step : ℚ) : ℚ :=
  imageReaderClampZoom (current + step)

/-- `zoomOut(step = 0.25)` delegates to `setZoom(z => z - step)`. -/
def imageReaderZoomOut (current step : ℚ) : ℚ :=
  imageReaderClampZoom (current - step)

/-! ### Hotspot pipelines

Three separate places handle hotspot geometry:
1. `loadArticleHotspots` in `ModernPDFReader.tsx` builds a page-indexed map of
   `ArticleHotspot`s from the `articles` table rows, discarding rows whose
   clamped width or height is non-positive;
2. the `reader-manifest` edge function builds per-page hotspot lists for the
   manifest, clamping geometry but not discarding anything;
3. `HotspotOverlayComponent` renders `manifest.pages[currentPage - 1].hotspots`
   for the current page without filtering.
`null` numeric columns are embedded as `Option` fields. -/

/-- `clamp01` of `ModernPDFReader.tsx`: `Math.max(0, Math.min(1, value ?? 0))`. -/
def clamp01 (value : Option ℚ) : ℚ :=
  max 0 (min 1 (value.getD 0))

/-- A row of the `articles` table as selected by `loadArticleHotspots`. -/
structure ArticleRow where
  id : String
  titre : String
  ordreLecture : Option Int
  positionX : Option ℚ
  positionY : Option ℚ
  width : Option ℚ
  height : Option ℚ
  pageId : Option String
deriving DecidableEq, Repr

/-- The `ArticleHotspot` record the PDF reader stores per page. -/
structure ArticleHotspot where
  id : String
  titre : String
  x : ℚ
  y : ℚ
  width : ℚ
  height : ℚ
  ordre : Int
deriving DecidableEq, Repr

/-- `Math.max(1, Number(article?.ordre_lecture) || 1)`: a missing or zero
reading order falls back to 1, and the result is at least 1. -/
def fallbackPageNumber (ordreLecture : Option Int) : Int :=
  max 1 (match ordreLecture with
         | some o => if o = 0 then 1 else o
         | none => 1)

/-- Append a hotspot to one page's list in the page-indexed map. -/
def hotspotsInsert (m : Int → List ArticleHotspot) (page : Int)
    (h : ArticleHotspot) : Int → List ArticleHotspot :=
  fun p => if p = page then m p ++ [h] else m p

/-- The body of the `articlesData.forEach` in `loadArticleHotspots`: clamp the
width and height, drop the row when either is non-positive, otherwise resolve
the page number (the `pages` lookup, else the reading-order fallback) and
append the hotspot to that page's list. -/
def processArticle (pageNumberMap : List (String × Int))
    (m : Int → List ArticleHotspot) (a : ArticleRow) : Int → List ArticleHotspot :=
  let normalizedWidth := clamp01 a.width
  let normalizedHeight := clamp01 a.height
  if normalizedWidth ≤ 0 ∨ normalizedHeight ≤ 0 then m
  else
    let normalizedX := clamp01 a.positionX
    let normalizedY := clamp01 a.positionY
    let resolvedPageNumber :=
      a.pageId.bind (fun pid => (pageNumberMap.find? (fun e => e.1 == pid)).map (·.2))
    let safePageNumber :=
      match resolvedPageNumber with
      | some n => if 0 < n then n else fallbackPageNumber a.ordreLecture
      | none => fallbackPageNumber a.ordreLecture
    hotspotsInsert m safePageNumber
      { id := a.id, titre := a.titre, x := normalizedX, y := normalizedY
        width := normalizedWidth, height := normalizedHeight
        ordre := a.ordreLecture.getD 0 }

/-- The hotspot map built by `loadArticleHotspots`: fold the rows through
`processArticle`, then sort each page's list by reading order (the final
`list.sort((a, b) => a.ordre - b.ordre)`; JS array sort is stable). -/
def loadArticleHotspotsMap (pageNumberMap : List (String × Int))
    (articles : List ArticleRow) : Int → List ArticleHotspot :=
  let m := articles.foldl (processArticle pageNumberMap) (fun _ => [])
  fun page => (m page).mergeSort (fun a b => a.ordre ≤ b.ordre)

/-- `clamp01` of the `reader-manifest` function on an already-defaulted value
(`value ?? 0` is applied at the call sites). -/
def manifestClamp01 (value : ℚ) : ℚ :=
  max 0 (min 1 value)

/-- `normalizeLength` of `reader-manifest` is an alias of its `clamp01`. -/
def normalizeLength (value : ℚ) : ℚ :=
  manifestClamp01 value

/-- An article row as seen by `reader-manifest` (the join with `pages` is
embedded as `joinedPageNumber`). -/
structure ManifestArticleRow where
  id : String
  titre : Option String
  ordreLecture : Option Int
  positionX : Option ℚ
  positionY : Option ℚ
  width : Option ℚ
  height : Option ℚ
  pageId : Option String
  joinedPageNumber : Option Int
deriving DecidableEq, Repr

/-- A hotspot in the reader manifest. -/
structure ReaderHotspot where
  id : String
  title : String
  x : ℚ
  y : ℚ
  width : ℚ
  height : ℚ
  articleId : String
deriving DecidableEq, Repr

/-- The slice of a manifest page relevant to hotspots. -/
structure PageManifest where
  id : String
  pageNumber : Int
  hotspots : List ReaderHotspot
deriving DecidableEq, Repr

/-- One step of the `articles.forEach` in `reader-manifest`: resolve the page
number from the join, else from the page map; when it lies inside
`[1, pageManifests.length]` push the hotspot (geometry clamped, nothing
dropped) onto that page's list. -/
def manifestPushHotspot (pageMap : List (String × Int))
    (pageManifests : List PageManifest) (a : ManifestArticleRow) :
    List PageManifest :=
  let pageNumber : Option Int :=
    match a.joinedPageNumber with
    | some n => some n
    | none => a.pageId.bind (fun pid => (pageMap.find? (fun e => e.1 == pid)).map (·.2))
  match pageNumber with
  | some n =>
      if 1 ≤ n ∧ n ≤ (pageManifests.length : Int) then
        List.modify
          (fun page =>
            { page with
              hotspots := page.hotspots ++
                [{ id := a.id ++ "-hotspot"
                   title := a.titre.getD "Article"
                   x := manifestClamp01 (a.positionX.getD 0)
                   y := manifestClamp01 (a.positionY.getD 0)
                   width := normalizeLength (a.width.getD 0)
                   height := normalizeLength (a.height.getD 0)
                   articleId := a.id }] })
          (n - 1).toNat pageManifests
      else pageManifests
  | none => pageManifests

/-- The manifest hotspot lists: fold every article row through
`manifestPushHotspot`. -/
def buildManifestHotspots (pageMap : List (String × Int))
    (pageManifests : List PageManifest) (articles : List ManifestArticleRow) :
    List PageManifest :=
  articles.foldl (manifestPushHotspot pageMap) pageManifests

/-- `HotspotOverlayComponent`: the hotspots rendered for the current page are
`manifest.pages[state.currentPage - 1]?.hotspots ?? []`, with no filtering. -/
def overlayHotspots (pages : List PageManifest) (currentPage : Int) :
    List ReaderHotspot :=
  if currentPage - 1 < 0 then []
  else
    match pages.get? (currentPage - 1).toNat with
    | some page => page.hotspots
    | none => []

/-! ### The `RenderQueue` serializer (`ModernPDFReader.tsx`)

The class has three fields: `currentPromise`, `controller`, `queuedTask`.
We embed it as a labelled transition system.  Render tasks are opaque `Nat`
ids; every `start` allocates a fresh `AbortController` whose signal is a
fresh `Nat`.  A started worker stays in `workers` and settles later through
an explicit `settle` event (the event loop runs the promise continuation
`.then / .catch / .finally` atomically when the worker's promise settles):
this models the interleaving of the asynchronous `performRenderTask` with
further `enqueue` / `cancel` calls. -/

/-- How a worker's promise settles: fulfilled, rejected with `AbortError`,
or rejected with any other error. -/
inductive RenderOutcome where
  | success
  | abortErr
  | otherErr
deriving DecidableEq, Repr

/-- A started worker: its task, the signal of the controller it was started
with, and whether its promise has settled. -/
structure WorkerRec where
  task : Nat
  signal : Nat
  settled : Bool
deriving DecidableEq, Repr

/-- The queue's fields plus the bookkeeping of started workers, aborted
signals, and the tasks passed to `handleComplete` / `handleError`. -/
structure RQState where
  hasCurrent : Bool
  controller : Option Nat
  queuedTask : Option Nat
  workers : List WorkerRec
  abortedSignals : List Nat
  completions : List Nat
  errors : List Nat
  nextSignal : Nat
deriving DecidableEq, Repr

def RQState.init : RQState :=
  { hasCurrent := false, controller := none, queuedTask := none, workers := []
    abortedSignals := [], completions := [], errors := [], nextSignal := 0 }

/-- `this.controller?.abort()`. -/
def abortCurrentController (s : RQState) : RQState :=
  match s.controller with
  | some sig => { s with abortedSignals := sig :: s.abortedSignals }
  | none => s

/-- `start(task)` without the attached continuation: allocate a controller,
record the worker as running, set `currentPromise`. -/
def rqStart (t : Nat) (s : RQState) : RQState :=
  { s with
    controller := some s.nextSignal
    hasCurrent := true
    workers := s.workers ++ [{ task := t, signal := s.nextSignal, settled := false }]
    nextSignal := s.nextSignal + 1 }

/-- `enqueue(task)`: while a render is in flight, abort its controller and
overwrite the queued task; otherwise start immediately. -/
def rqEnqueue (t : Nat) (s : RQState) : RQState :=
  if s.hasCurrent then { (abortCurrentController s) with queuedTask := some t }
  else rqStart t s

/-- `cancel()`: abort the current controller and null out all three fields. -/
def rqCancel (s : RQState) : RQState :=
  { (abortCurrentController s) with
    queuedTask := none, hasCurrent := false, controller := none }

/-- The settling of worker `i`'s promise with outcome `o`, running the
continuation attached in `start`: the `.then` branch calls `handleComplete`
only when the worker's own signal was never aborted and the promise was
fulfilled; the `.catch` branch swallows `AbortError` and reports any other
rejection to `handleError`; the `.finally` branch nulls `currentPromise` and
`controller`, takes the queued task and starts it.  Settling an unknown or
already-settled worker is a no-op.  Neither completion handler touches
`queuedTask`, so the `.finally` branch reads the queued task unchanged from
the state at settling time. -/
def rqSettle (i : Nat) (o : RenderOutcome) (s : RQState) : RQState :=
  match s.workers.get? i with
  | none => s
  | some w =>
      if w.settled then s
      else
        let s1 := { s with workers := s.workers.set i { w with settled := true } }
        let aborted := decide (w.signal ∈ s1.abortedSignals)
        let s2 :=
          if o = .success ∧ aborted = false then
            { s1 with completions := s1.completions ++ [w.task] }
          else s1
        let s3 :=
          if o = .otherErr then { s2 with errors := s2.errors ++ [w.task] }
          else s2
        let s4 := { s3 with hasCurrent := false, controller := none, queuedTask := none }
        match s.queuedTask with
        | some next => rqStart next s4
        | none => s4

/-- The external events of the queue. -/
inductive RQEvent where
  | enq (t : Nat)
  | cancel
  | settle (i : Nat) (o : RenderOutcome)
deriving DecidableEq, Repr

def rqStep (s : RQState) : RQEvent → RQState
  | .enq t => rqEnqueue t s
  | .cancel => rqCancel s
  | .settle i o => rqSettle i o s

def rqRun (events : List RQEvent) : RQState :=
  events.foldl rqStep RQState.init

/-- Workers that have started and whose promise has not settled. -/
def unsettledCount (s : RQState) : Nat :=
  (s.workers.filter (fun w => !w.settled)).length

/-- Workers that have started, have not settled, and whose cancellation has
not been requested. -/
def activeCount (s : RQState) : Nat :=
  (s.workers.filter
    (fun w => !w.settled && !(s.abortedSignals.contains w.signal))).length

/-- The single-flight invariant: the `currentPromise` field tracks exactly
the number of started-but-unsettled workers. -/
def rqWellFormed (s : RQState) : Prop :=
  (s.hasCurrent = true → unsettledCount s = 1) ∧
  (s.hasCurrent = false → unsettledCount s = 0)

/-! ### `RenderCache` and the `renderPage` duplicate-render suppression
(`ModernPDFReader.tsx`)

The `RenderCache` is a `Map<string, CachedRender>` bounded to `maxEntries = 6`,
keyed by the plan fingerprint; capacity enforcement deletes the oldest key
(the head of the insertion order).  `ImageBitmap`s are opaque `Nat` ids. -/

structure RenderPlan where
  page : Int
  rotation : Int
  scale : ℚ
  containerWidth : ℚ
  containerHeight : ℚ
  pagesToRender : List Int
deriving DecidableEq, Repr

/-- `createPlanFingerprint`: the fields joined with `|`, the page list joined
with `,`. -/
def createPlanFingerprint (plan : RenderPlan) : String :=
  toString plan.page ++ "|" ++ toString plan.rotation ++ "|" ++ toString plan.scale
    ++ "|" ++ toString plan.containerWidth ++ "|" ++ toString plan.containerHeight
    ++ "|" ++ String.intercalate "," (plan.pagesToRender.map toString)

/-- A cached composited render; `dpr` embeds the stored `devicePixelRatio`
(the bitmap pixels themselves are not modelled). -/
structure CachedRender where
  bitmap : Nat
  dpr : ℚ
deriving DecidableEq, Repr

/-- `RenderCache.get`: on a hit the entry is deleted and re-inserted at the
end of the map (recency refresh). -/
def renderCacheGet (key : String) (entries : List (String × CachedRender)) :
    Option CachedRender × List (String × CachedRender) :=
  match entries.find? (fun p => p.1 == key) with
  | none => (none, entries)
  | some (_, entry) =>
      (some entry, entries.eraseP (fun p => p.1 == key) ++ [(key, entry)])

/-- The `while (size > maxEntries)` loop of `RenderCache.enforceCapacity`:
delete the first (oldest) key; fuel of at least the length realises the
loop. -/
def renderCacheEnforce : Nat → Nat → List (String × CachedRender) →
    List (String × CachedRender)
  | 0, _, entries => entries
  | fuel + 1, maxEntries, entries =>
      if maxEntries < entries.length then
        renderCacheEnforce fuel maxEntries entries.tail
      else entries

/-- `RenderCache.set`: close and delete any existing entry under the key,
insert the new one at the end, then enforce capacity. -/
def renderCacheSet (key : String) (value : CachedRender) (maxEntries : Nat)
    (entries : List (String × CachedRender)) : List (String × CachedRender) :=
  let entries1 :=
    if entries.any (fun p => p.1 == key) then entries.eraseP (fun p => p.1 == key)
    else entries
  renderCacheEnforce (entries1 ++ [(key, value)]).length maxEntries
    (entries1 ++ [(key, value)])

/-- The state `renderPage` reads and writes: the `lastRenderFingerprintRef`,
the `RenderCache` entries, the `pdfReady` flag, and a counter of native
render executions (`performRenderTask` runs: decode, composite, watermark). -/
structure RenderModel where
  lastRenderFingerprint : Option String
  cache : List (String × CachedRender)
  nativeRenders : Nat
  pdfReady : Bool
deriving DecidableEq, Repr

/-- A completed `performRenderTask` under the model: one unit of native
drawing work, after which the composited bitmap is stored in the
`RenderCache` under the plan fingerprint (with the effective device pixel
ratio `dpr || 1`) and `handleComplete` records the fingerprint as last
rendered and flips `pdfReady`. -/
def performAndComplete (fingerprint : String) (dpr : ℚ) (m : RenderModel) :
    RenderModel :=
  let effectiveDpr := if dpr = 0 then 1 else dpr
  { m with
    nativeRenders := m.nativeRenders + 1
    cache := renderCacheSet fingerprint
      { bitmap := m.nativeRenders, dpr := effectiveDpr } 6 m.cache
    lastRenderFingerprint := some fingerprint
    pdfReady := true }

/-- `renderPage` for a plan that resolved (`createRenderPlan` returned a
plan), with the enqueued task run to completion (the sequential abstraction
of the queue: one uncancelled in-flight render).  The call returns untouched
when the fingerprint equals the last rendered one; otherwise a cache hit
whose stored device pixel ratio is within `0.05` of the current one is blitted
from the cached bitmap (no native work) and recorded as last rendered; in all
other cases the task is enqueued and performs the native work. -/
def renderPageModel (plan : RenderPlan) (dpr : ℚ) (m : RenderModel) : RenderModel :=
  let fingerprint := createPlanFingerprint plan
  if m.lastRenderFingerprint = some fingerprint then m
  else
    match renderCacheGet fingerprint m.cache with
    | (some cached, cache1) =>
        if |cached.dpr - dpr| < 1 / 20 then
          { m with
            cache := cache1
            lastRenderFingerprint := some fingerprint
            pdfReady := true }
        else performAndComplete fingerprint dpr { m with cache := cache1 }
    | (none, cache1) => performAndComplete fingerprint dpr { m with cache := cache1 }

/-! ## Theorems -/

/-! ### The image cache's eviction loops -/

theorem lruScan_lt {n : Nat} :
    ∀ (rest : List (String × CacheEntry)) (bt bi i : Nat),
      bi < n → i + rest.length ≤ n → lruScan rest bt bi i < n := by
  intro rest
  induction rest with
  | nil =>
      intro bt bi i hbi _
      simpa [lruScan] using hbi
  | cons e rest ih =>
      intro bt bi i hbi hlen
      simp only [List.length_cons] at hlen
      simp only [lruScan]
      by_cases h : e.2.lastAccessed < bt
      · rw [if_pos h]
        exact ih _ _ _ (by omega) (by omega)
      · rw [if_neg h]
        exact ih _ _ _ hbi (by omega)

theorem lruIndex_lt (l : List (String × CacheEntry)) (h : l ≠ []) :
    lruIndex l < l.length := by
  match l with
  | e :: rest =>
      simp only [lruIndex, List.length_cons]
      exact lruScan_lt rest _ 0 1 (by omega) (by omega)

theorem evictLRU_length (c : ImageCache) (h : c.entries ≠ []) :
    (evictLRU c).entries.length + 1 = c.entries.length := by
  have hne : c.entries.isEmpty = false := by
    cases hc : c.entries with
    | nil => exact absurd hc h
    | cons a l => rfl
  have hpos : 0 < c.entries.length := List.length_pos.mpr h
  have hidx := lruIndex_lt c.entries h
  simp only [evictLRU, hne, Bool.false_eq_true, if_false]
  rw [List.length_eraseIdx_of_lt hidx]
  omega

theorem enforceEntryCapLoop_le (maxEntries : Nat) :
    ∀ (fuel : Nat) (c : ImageCache), c.entries.length ≤ fuel →
      (enforceEntryCapLoop fuel maxEntries c).entries.length ≤ maxEntries := by
  intro fuel
  induction fuel with
  | zero =>
      intro c hc
      simp only [enforceEntryCapLoop]
      omega
  | succ fuel ih =>
      intro c hc
      simp only [enforceEntryCapLoop]
      by_cases h : maxEntries < c.entries.length
      · rw [if_pos h]
        apply ih
        have hne : c.entries ≠ [] := by
          intro he
          rw [he] at h
          simp at h
        have := evictLRU_length c hne
        omega
      · rw [if_neg h]
        omega

theorem enforceSizeCapLoop_size_le (maxSizeBytes : Nat) :
    ∀ (fuel : Nat) (c : ImageCache), c.entries.length ≤ fuel →
      getTotalCacheSize (enforceSizeCapLoop fuel maxSizeBytes c).entries ≤ maxSizeBytes := by
  intro fuel
  induction fuel with
  | zero =>
      intro c hc
      have : c.entries = [] := List.length_eq_zero.mp (by omega)
      simp only [enforceSizeCapLoop, this, getTotalCacheSize, List.foldl_nil]
      omega
  | succ fuel ih =>
      intro c hc
      simp only [enforceSizeCapLoop]
      by_cases h : maxSizeBytes < getTotalCacheSize c.entries ∧ 0 < c.entries.length
      · rw [if_pos h]
        apply ih
        have hne : c.entries ≠ [] := by
          intro he
          rw [he] at h
          simp at h
        have := evictLRU_length c hne
        omega
      · rw [if_neg h]
        rcases Decidable.not_and_iff_or_not.mp h with h1 | h2
        · omega
        · have : c.entries = [] := List.length_eq_zero.mp (by omega)
          simp only [this, getTotalCacheSize, List.foldl_nil]
          omega

theorem enforceSizeCapLoop_length_le (maxSizeBytes : Nat) :
    ∀ (fuel : Nat) (c : ImageCache),
      (enforceSizeCapLoop fuel maxSizeBytes c).entries.length ≤ c.entries.length := by
  intro fuel
  induction fuel with
  | zero =>
      intro c
      simp [enforceSizeCapLoop]
  | succ fuel ih =>
      intro c
      simp only [enforceSizeCapLoop]
      by_cases h : maxSizeBytes < getTotalCacheSize c.entries ∧ 0 < c.entries.length
      · rw [if_pos h]
        have hne : c.entries ≠ [] := by
          intro he
          rw [he] at h
          simp at h
        have h1 := evictLRU_length c hne
        have h2 := ih (evictLRU c)
        omega
      · rw [if_neg h]

/-- C3: for every sequence of `set` operations on the image cache (any pages,
qualities and byte sizes), after each `set` the number of resident entries is
at most the configured `maxEntries` and the sum of resident `sizeBytes` is at
most the configured `maxSizeBytes`.  Stated for an arbitrary prior cache
state, which covers every point of every operation sequence. -/
theorem imageCache_set_within_budgets (c : ImageCache) (page : Nat)
    (quality : ImageQuality) (image sizeBytes now maxEntries maxSizeBytes : Nat) :
    (c.set page quality image sizeBytes now maxEntries maxSizeBytes).entries.length
        ≤ maxEntries ∧
    getTotalCacheSize
        (c.set page quality image sizeBytes now maxEntries maxSizeBytes).entries
      ≤ maxSizeBytes := by
  simp only [ImageCache.set, enforceCapacity]
  constructor
  · exact le_trans (enforceSizeCapLoop_length_le _ _ _)
      (enforceEntryCapLoop_le _ _ _ (le_refl _))
  · exact enforceSizeCapLoop_size_le _ _ _ (le_refl _)

/-- C4: the image cache evicts the least-recently-used entry first with a
`get` hit counting as a use.  First scenario: count capacity 3, byte budget
not binding; after `set A, set B, set C, get A, set D` entry `B` is evicted
and `A, C, D` remain (pages 1–4 stand for A–D).  Second scenario: capacity 2;
after `set(1,'high')`, `set(2,'high')`, `get(1,'high')`, `set(3,'high')`,
pages 1 and 3 are resident and page 2 is evicted.  Timestamps increase by one
per operation. -/
theorem imageCache_lru_eviction_order :
    ((((((emptyCache.set 1 .high 11 1 1 3 1000000000).set 2 .high 12 1 2 3
        1000000000).set 3 .high 13 1 3 3 1000000000).get 1 .high 4).2.set 4 .high
        14 1 5 3 1000000000).has 1 .high = true ∧
     (((((emptyCache.set 1 .high 11 1 1 3 1000000000).set 2 .high 12 1 2 3
        1000000000).set 3 .high 13 1 3 3 1000000000).get 1 .high 4).2.set 4 .high
        14 1 5 3 1000000000).has 3 .high = true ∧
     (((((emptyCache.set 1 .high 11 1 1 3 1000000000).set 2 .high 12 1 2 3
        1000000000).set 3 .high 13 1 3 3 1000000000).get 1 .high 4).2.set 4 .high
        14 1 5 3 1000000000).has 4 .high = true ∧
     (((((emptyCache.set 1 .high 11 1 1 3 1000000000).set 2 .high 12 1 2 3
        1000000000).set 3 .high 13 1 3 3 1000000000).get 1 .high 4).2.set 4 .high
        14 1 5 3 1000000000).has 2 .high = false) ∧
    (((((emptyCache.set 1 .high 21 1 1 2 1000000000).set 2 .high 22 1 2 2
        1000000000).get 1 .high 3).2.set 3 .high 23 1 4 2 1000000000).has 1 .high = true ∧
     ((((emptyCache.set 1 .high 21 1 1 2 1000000000).set 2 .high 22 1 2 2
        1000000000).get 1 .high 3).2.set 3 .high 23 1 4 2 1000000000).has 3 .high = true ∧
     ((((emptyCache.set 1 .high 21 1 1 2 1000000000).set 2 .high 22 1 2 2
        1000000000).get 1 .high 3).2.set 3 .high 23 1 4 2 1000000000).has 2 .high = false) := by
  decide

/-! ### Helper lemmas for the oversized-entry behaviour of `set` -/

theorem getTotalCacheSize_shift :
    ∀ (l : List (String × CacheEntry)) (a : Nat),
      l.foldl (fun total e => total + e.2.sizeBytes) a = a + getTotalCacheSize l := by
  intro l
  induction l with
  | nil => intro a; simp [getTotalCacheSize]
  | cons e l ih =>
      intro a
      simp only [getTotalCacheSize, List.foldl_cons] at *
      rw [ih (a + e.2.sizeBytes), ih (0 + e.2.sizeBytes)]
      omega

theorem getTotalCacheSize_append (l1 l2 : List (String × CacheEntry)) :
    getTotalCacheSize (l1 ++ l2) = getTotalCacheSize l1 + getTotalCacheSize l2 := by
  simp only [getTotalCacheSize, List.foldl_append]
  rw [getTotalCacheSize_shift l2 (List.foldl (fun total e => total + e.2.sizeBytes) 0 l1)]
  rfl

theorem lruScan_append_last (x : String × CacheEntry) :
    ∀ (rest : List (String × CacheEntry)) (bt bi i : Nat),
      bt ≤ x.2.lastAccessed →
      lruScan (rest ++ [x]) bt bi i = lruScan rest bt bi i := by
  intro rest
  induction rest with
  | nil =>
      intro bt bi i hbt
      simp only [List.nil_append, lruScan]
      rw [if_neg (by omega)]
  | cons e rest ih =>
      intro bt bi i hbt
      simp only [List.cons_append, lruScan]
      by_cases h : e.2.lastAccessed < bt
      · rw [if_pos h, if_pos h]
        exact ih _ _ _ (by omega)
      · rw [if_neg h, if_neg h]
        exact ih _ _ _ hbt

theorem lruIndex_append_last (init : List (String × CacheEntry))
    (x : String × CacheEntry) (hne : init ≠ [])
    (hle : ∀ e ∈ init, e.2.lastAccessed ≤ x.2.lastAccessed) :
    lruIndex (init ++ [x]) = lruIndex init := by
  match init with
  | e :: rest =>
      simp only [List.cons_append, lruIndex]
      exact lruScan_append_last x rest _ 0 1 (hle e (List.mem_cons_self _ _))

theorem evictLRU_append_last (init : List (String × CacheEntry))
    (x : String × CacheEntry) (st : CacheStats) (hne : init ≠ [])
    (hle : ∀ e ∈ init, e.2.lastAccessed ≤ x.2.lastAccessed) :
    evictLRU ⟨init ++ [x], st⟩ =
      ⟨init.eraseIdx (lruIndex init) ++ [x],
       { st with evictions := st.evictions + 1 }⟩ := by
  have hne2 : init ++ [x] ≠ [] := by simp
  have hempty : (init ++ [x]).isEmpty = false := by
    cases h : init ++ [x] with
    | nil => exact absurd h hne2
    | cons a l => rfl
  simp only [evictLRU, hempty, Bool.false_eq_true, if_false]
  rw [lruIndex_append_last init x hne hle,
    List.eraseIdx_append_of_lt_length (lruIndex_lt init hne)]

theorem evictLRU_singleton (x : String × CacheEntry) (st : CacheStats) :
    evictLRU ⟨[x], st⟩ = ⟨[], { st with evictions := st.evictions + 1 }⟩ := by
  simp [evictLRU, lruIndex, lruScan, List.eraseIdx]

theorem enforceSizeCapLoop_of_nil (fuel maxSizeBytes : Nat) (c : ImageCache)
    (h : c.entries = []) : enforceSizeCapLoop fuel maxSizeBytes c = c := by
  cases fuel with
  | zero => rfl
  | succ fuel =>
      simp only [enforceSizeCapLoop]
      rw [if_neg (by simp [h])]

theorem enforceEntryCapLoop_of_nil (fuel maxEntries : Nat) (c : ImageCache)
    (h : c.entries = []) : enforceEntryCapLoop fuel maxEntries c = c := by
  cases fuel with
  | zero => rfl
  | succ fuel =>
      simp only [enforceEntryCapLoop]
      rw [if_neg (by simp [h])]

theorem enforceSizeCapLoop_oversized :
    ∀ (fuel : Nat) (init : List (String × CacheEntry)) (x : String × CacheEntry)
      (st : CacheStats) (maxSizeBytes : Nat),
      init.length + 1 ≤ fuel →
      maxSizeBytes < x.2.sizeBytes →
      (∀ e ∈ init, e.2.lastAccessed ≤ x.2.lastAccessed) →
      (enforceSizeCapLoop fuel maxSizeBytes ⟨init ++ [x], st⟩).entries = [] := by
  intro fuel
  induction fuel with
  | zero =>
      intro init x st maxS hfuel _ _
      omega
  | succ fuel ih =>
      intro init x st maxS hfuel hover hle
      have htot : maxS < getTotalCacheSize (init ++ [x]) := by
        rw [getTotalCacheSize_append]
        have : getTotalCacheSize [x] = x.2.sizeBytes := by
          simp [getTotalCacheSize]
        omega
      simp only [enforceSizeCapLoop]
      rw [if_pos ⟨htot, by simp⟩]
      cases hinit : init with
      | nil =>
          subst hinit
          simp only [List.nil_append]
          rw [evictLRU_singleton]
          rw [enforceSizeCapLoop_of_nil _ _ _ rfl]
      | cons e rest =>
          rw [← hinit]
          have hne : init ≠ [] := by rw [hinit]; exact List.cons_ne_nil _ _
          rw [evictLRU_append_last init x st hne hle]
          apply ih
          · have hlt := lruIndex_lt init hne
            have := List.length_eraseIdx_of_lt hlt
            omega
          · exact hover
          · intro e2 he2
            exact hle e2 (List.mem_of_mem_eraseIdx he2)

theorem enforceEntryCapLoop_shape :
    ∀ (fuel maxEntries : Nat) (init : List (String × CacheEntry))
      (x : String × CacheEntry) (st : CacheStats),
      (∀ e ∈ init, e.2.lastAccessed ≤ x.2.lastAccessed) →
      (enforceEntryCapLoop fuel maxEntries ⟨init ++ [x], st⟩).entries = [] ∨
      ∃ init2 st2,
        enforceEntryCapLoop fuel maxEntries ⟨init ++ [x], st⟩ = ⟨init2 ++ [x], st2⟩ ∧
        (∀ e ∈ init2, e.2.lastAccessed ≤ x.2.lastAccessed) := by
  intro fuel
  induction fuel with
  | zero =>
      intro maxE init x st hle
      exact Or.inr ⟨init, st, rfl, hle⟩
  | succ fuel ih =>
      intro maxE init x st hle
      simp only [enforceEntryCapLoop]
      by_cases h : maxE < (init ++ [x]).length
      · rw [if_pos h]
        cases hinit : init with
        | nil =>
            subst hinit
            simp only [List.nil_append]
            rw [evictLRU_singleton]
            rw [enforceEntryCapLoop_of_nil _ _ _ rfl]
            exact Or.inl rfl
        | cons e rest =>
            rw [← hinit]
            have hne : init ≠ [] := by rw [hinit]; exact List.cons_ne_nil _ _
            rw [evictLRU_append_last init x st hne hle]
            apply ih
            intro e2 he2
            exact hle e2 (List.mem_of_mem_eraseIdx he2)
      · rw [if_neg h]
        exact Or.inr ⟨init, st, rfl, hle⟩

/-- C10: calling `set` with `sizeBytes` strictly above `maxSizeBytes` makes
the byte loop of `enforceCapacity` evict every resident entry, the oversized
freshly inserted one included, leaving the cache empty.  The hypothesis on
`now` states that the wall clock did not run backwards: every resident
`lastAccessed` is at most `Date.now()`. -/
theorem imageCache_set_oversized_empties (c : ImageCache) (page : Nat)
    (quality : ImageQuality) (image sizeBytes now maxEntries maxSizeBytes : Nat)
    (hover : maxSizeBytes < sizeBytes)
    (hclock : ∀ e ∈ c.entries, e.2.lastAccessed ≤ now) :
    (c.set page quality image sizeBytes now maxEntries maxSizeBytes).entries = [] := by
  simp only [ImageCache.set, enforceCapacity]
  set key := getCacheKey page quality with hkey
  set entry : CacheEntry :=
    { image := image, quality := quality, loadedAt := now, sizeBytes := sizeBytes
      accessCount := 1, lastAccessed := now } with hentry
  set entries0 : List (String × CacheEntry) :=
    if c.entries.any (fun p => p.1 == key) then cacheDelete key c.entries else c.entries
    with hentries0
  have hle : ∀ e ∈ entries0, e.2.lastAccessed ≤ (key, entry).2.lastAccessed := by
    intro e he
    have : e ∈ c.entries := by
      rw [hentries0] at he
      by_cases hany : c.entries.any (fun p => p.1 == key)
      · rw [if_pos hany] at he
        exact (List.eraseP_sublist c.entries).mem he
      · rw [if_neg hany] at he
        exact he
    exact hclock e this
  rcases enforceEntryCapLoop_shape _ maxEntries entries0 (key, entry) _ hle with
    hnil | ⟨init2, st2, heq, hle2⟩
  · rw [enforceSizeCapLoop_of_nil _ _ _ hnil]
    exact hnil
  · rw [heq]
    apply enforceSizeCapLoop_oversized
    · simp
    · exact hover
    · exact hle2

/-- C10 witness: a concrete oversized `set` (entry of 50 bytes against a
10-byte budget, on a cache already holding a page) leaves the cache empty. -/
theorem imageCache_set_oversized_empties_witness :
    ((emptyCache.set 1 .high 11 4 1 10 10).set 2 .high 12 50 2 10 10).entries = [] := by
  apply imageCache_set_oversized_empties
  · decide
  · decide

/-! ### Prefetch scheduler theorems -/

/-- C6: for `currentPage = 5`, `totalPages = 10`, `preloadDistance = 2` the
built queue is exactly the tasks for pages 5, 4, 6 at priority `high` and
pages 3, 7 at priority `medium` (in this order), with no task for page 8 or
any other page; and `calculatePriority` maps distance 0–1 to `high`,
distance 2 to `medium`, and larger distances to `low`. -/
theorem buildQueue_scenario_and_priority :
    buildQueue true true 5 10 .high 2 =
      [⟨5, .high, .high⟩, ⟨4, .high, .high⟩, ⟨6, .high, .high⟩,
       ⟨3, .high, .medium⟩, ⟨7, .high, .medium⟩] ∧
    ∀ page currentPage : Int,
      calculatePriority page currentPage =
        if (page - currentPage).natAbs ≤ 1 then .high
        else if (page - currentPage).natAbs = 2 then .medium
        else .low := by
  constructor
  · decide
  · intro page cp
    simp only [calculatePriority]
    by_cases h0 : (page - cp).natAbs = 0
    · rw [if_pos h0, if_pos (by omega)]
    by_cases h1 : (page - cp).natAbs = 1
    · rw [if_neg h0, if_pos h1, if_pos (by omega)]
    by_cases h2 : (page - cp).natAbs = 2
    · rw [if_neg h0, if_neg h1, if_pos (by omega), if_neg (by omega), if_pos h2]
    · rw [if_neg h0, if_neg h1, if_neg (by omega), if_neg (by omega), if_neg h2]

theorem pushCandidate_mem (totalPages : Int) (quality : ImageQuality)
    (st : List Int × List PreloadTask) (page : Int) (priority : Priority) :
    ∀ t ∈ (pushCandidate totalPages quality st page priority).2,
      t ∈ st.2 ∨ (1 ≤ t.page ∧ t.page ≤ totalPages) := by
  intro t ht
  unfold pushCandidate at ht
  by_cases h : 1 ≤ page ∧ page ≤ totalPages ∧ page ∉ st.1
  · rw [if_pos h] at ht
    simp only [List.mem_append, List.mem_singleton] at ht
    rcases ht with h1 | h2
    · exact Or.inl h1
    · subst h2
      exact Or.inr ⟨h.1, h.2.1⟩
  · rw [if_neg h] at ht
    exact Or.inl ht

theorem foldl_pushCandidate_mem (totalPages : Int) (quality : ImageQuality)
    (f : Int → Priority) :
    ∀ (pages : List Int) (st : List Int × List PreloadTask),
      ∀ t ∈ (pages.foldl
          (fun st page => pushCandidate totalPages quality st page (f page)) st).2,
        t ∈ st.2 ∨ (1 ≤ t.page ∧ t.page ≤ totalPages) := by
  intro pages
  induction pages with
  | nil =>
      intro st t ht
      exact Or.inl ht
  | cons p ps ih =>
      intro st t ht
      simp only [List.foldl_cons] at ht
      rcases ih _ t ht with h1 | h2
      · exact pushCandidate_mem totalPages quality st p (f p) t h1
      · exact Or.inr h2

theorem outer_foldl_pushCandidate_mem (totalPages currentPage : Int)
    (quality : ImageQuality) :
    ∀ (idxs : List Nat) (st : List Int × List PreloadTask),
      ∀ t ∈ (idxs.foldl
          (fun st i =>
            [currentPage - (i : Int), currentPage + (i : Int)].foldl
              (fun st page =>
                pushCandidate totalPages quality st page
                  (calculatePriority page currentPage))
              st)
          st).2,
        t ∈ st.2 ∨ (1 ≤ t.page ∧ t.page ≤ totalPages) := by
  intro idxs
  induction idxs with
  | nil =>
      intro st t ht
      exact Or.inl ht
  | cons i idxs ih =>
      intro st t ht
      simp only [List.foldl_cons] at ht
      rcases ih _ t ht with h1 | h2
      · exact foldl_pushCandidate_mem totalPages quality
          (fun page => calculatePriority page currentPage)
          [currentPage - (i : Int), currentPage + (i : Int)] st t h1
      · exact Or.inr h2

/-- C7 counterexample: for `currentPage = 0`, `totalPages = 10`,
`preloadDistance = 2`, the built queue contains the unconditionally pushed
current-page task for page 0, which lies outside `[1, totalPages]` — so the
claim quantified over every `currentPage` fails. -/
theorem buildQueue_out_of_range_counterexample :
    (⟨0, .high, .high⟩ : PreloadTask) ∈ buildQueue true true 0 10 .high 2 ∧
    ¬(1 ≤ (⟨0, ImageQuality.high, Priority.high⟩ : PreloadTask).page) := by
  constructor
  · decide
  · decide

/-- C7 (amended): provided the current page itself lies within
`[1, totalPages]` — which the reader's navigation maintains — every preload
task in the built queue has its page within `[1, totalPages]`; candidate
pages outside the range are dropped by the guard.  (The unconditional
current-page push is the only unguarded task, so the restriction on
`currentPage` is exactly what the counterexample forces.) -/
theorem buildQueue_pages_in_range (hasManifest enabled : Bool)
    (currentPage totalPages : Int) (quality : ImageQuality) (distance : Nat)
    (h1 : 1 ≤ currentPage) (h2 : currentPage ≤ totalPages) :
    ∀ t ∈ buildQueue hasManifest enabled currentPage totalPages quality distance,
      1 ≤ t.page ∧ t.page ≤ totalPages := by
  intro t ht
  simp only [buildQueue] at ht
  by_cases hgate : ¬hasManifest = true ∨ ¬enabled = true
  · rw [if_pos hgate] at ht
    exact absurd ht (List.not_mem_nil t)
  · rw [if_neg hgate] at ht
    rcases outer_foldl_pushCandidate_mem totalPages currentPage quality
        (List.range' 2 (distance - 1))
        (List.foldl
          (fun st page => pushCandidate totalPages quality st page Priority.high)
          ([currentPage], [⟨currentPage, quality, Priority.high⟩])
          [currentPage - 1, currentPage + 1])
        t ht with hst1 | hrange
    · rcases foldl_pushCandidate_mem totalPages quality (fun _ => Priority.high)
        [currentPage - 1, currentPage + 1]
        ([currentPage], [⟨currentPage, quality, Priority.high⟩]) t hst1 with
        hst0 | hrange
      · simp only [List.mem_singleton] at hst0
        subst hst0
        exact ⟨h1, h2⟩
      · exact hrange
    · exact hrange

/-- C7 witness: the amended statement applied to the concrete queue for
`currentPage = 5`, `totalPages = 10`, distance 2, at the current-page task. -/
theorem buildQueue_pages_in_range_witness :
    1 ≤ (⟨5, ImageQuality.high, Priority.high⟩ : PreloadTask).page ∧
    (⟨5, ImageQuality.high, Priority.high⟩ : PreloadTask).page ≤ 10 :=
  buildQueue_pages_in_range true true 5 10 .high 2 (by decide) (by decide)
    ⟨5, .high, .high⟩ (by decide)

/-! ### Zoom clamp theorems -/

/-- C8 counterexample: the image reader's `setZoom` clamp
(`Math.max(0.5, Math.min(5, z))`) sends the requested zoom 4 to 4, which
lies outside `[0.5, 3.0]` — so the claim that every zoom-setting operation
lands in `[0.5, 3.0]` fails for `useImageReader`'s controls. -/
theorem imageReaderZoom_counterexample :
    imageReaderClampZoom 4 = 4 ∧ ¬(imageReaderClampZoom 4 ≤ 3) := by
  constructor
  · rw [imageReaderClampZoom, min_eq_right (by norm_num), max_eq_right (by norm_num)]
  · rw [imageReaderClampZoom, min_eq_right (by norm_num), max_eq_right (by norm_num)]
    norm_num

/-- C8 (amended): the `ReaderContext` reducer's `SET_ZOOM` clamps every
requested zoom into `[0.5, 3.0]`, while the image reader's
`setZoom` / `zoomIn` / `zoomOut` clamp into the wider range `[0.5, 5]`. -/
theorem zoom_clamp_ranges :
    (∀ (s : ReaderState) (z : ℚ),
        1 / 2 ≤ (readerReducer s (.setZoom z)).zoom ∧
        (readerReducer s (.setZoom z)).zoom ≤ 3) ∧
    (∀ z : ℚ, 1 / 2 ≤ imageReaderClampZoom z ∧ imageReaderClampZoom z ≤ 5) ∧
    (∀ current step : ℚ,
        1 / 2 ≤ imageReaderZoomIn current step ∧ imageReaderZoomIn current step ≤ 5) ∧
    (∀ current step : ℚ,
        1 / 2 ≤ imageReaderZoomOut current step ∧
        imageReaderZoomOut current step ≤ 5) := by
  refine ⟨fun s z => ⟨le_max_left _ _, ?_⟩,
          fun z => ⟨le_max_left _ _, ?_⟩,
          fun current step => ⟨le_max_left _ _, ?_⟩,
          fun current step => ⟨le_max_left _ _, ?_⟩⟩
  · exact max_le (by norm_num) (min_le_right _ _)
  · exact max_le (by norm_num) (min_le_left _ _)
  · exact max_le (by norm_num) (min_le_left _ _)
  · exact max_le (by norm_num) (min_le_left _ _)

/-! ### Hotspot pipeline theorems -/

theorem processArticle_mem (pageNumberMap : List (String × Int))
    (m : Int → List ArticleHotspot) (a : ArticleRow) (page : Int) :
    ∀ h ∈ processArticle pageNumberMap m a page,
      h ∈ m page ∨ (0 < h.width ∧ 0 < h.height) := by
  intro h hh
  simp only [processArticle] at hh
  by_cases hcond : clamp01 a.width ≤ 0 ∨ clamp01 a.height ≤ 0
  · rw [if_pos hcond] at hh
    exact Or.inl hh
  · rw [if_neg hcond] at hh
    push_neg at hcond
    simp only [hotspotsInsert] at hh
    split at hh
    · rcases List.mem_append.mp hh with h1 | h2
      · exact Or.inl h1
      · rw [List.mem_singleton] at h2
        subst h2
        exact Or.inr ⟨hcond.1, hcond.2⟩
    · exact Or.inl hh

theorem foldl_processArticle_mem (pageNumberMap : List (String × Int)) :
    ∀ (articles : List ArticleRow) (m : Int → List ArticleHotspot) (page : Int),
      ∀ h ∈ (articles.foldl (processArticle pageNumberMap) m) page,
        h ∈ m page ∨ (0 < h.width ∧ 0 < h.height) := by
  intro articles
  induction articles with
  | nil =>
      intro m page h hh
      exact Or.inl hh
  | cons a as ih =>
      intro m page h hh
      simp only [List.foldl_cons] at hh
      rcases ih (processArticle pageNumberMap m a) page h hh with h1 | h2
      · exact processArticle_mem pageNumberMap m a page h h1
      · exact Or.inr h2

/-- C9 counterexample: an article row with normalized width 0 on a valid page
is pushed into the manifest page's hotspot list by the `reader-manifest`
builder (which only clamps, never drops) and is therefore in the list the
hotspot overlay renders for that page — so the claim fails for two of the
three pipelines. -/
theorem manifest_zero_width_hotspot_counterexample :
    (⟨"a1-hotspot", "T", 1/4, 1/4, 0, 1/2, "a1"⟩ : ReaderHotspot) ∈
      overlayHotspots
        (buildManifestHotspots [("p1", 1)] [⟨"p1", 1, []⟩]
          [⟨"a1", some "T", some 1, some (1/4), some (1/4), some 0, some (1/2),
            some "p1", none⟩]) 1 ∧
    (⟨"a1-hotspot", "T", 1/4, 1/4, 0, 1/2, "a1"⟩ : ReaderHotspot).width = 0 := by
  constructor
  · norm_num [overlayHotspots, buildManifestHotspots, manifestPushHotspot,
      manifestClamp01, normalizeLength, List.modify, List.find?]
    rfl
  · rfl

/-- C9 (amended): in the PDF reader's `loadArticleHotspots` pipeline a
hotspot with non-positive normalized width or height never appears in any
page's renderable hotspot list; the `reader-manifest` builder and the
`HotspotOverlay`, however, perform no such filtering, and a zero-size hotspot
flows through them (see the counterexample). -/
theorem loadArticleHotspots_filters_nonpositive (pageNumberMap : List (String × Int))
    (articles : List ArticleRow) (page : Int) :
    ∀ h ∈ loadArticleHotspotsMap pageNumberMap articles page,
      0 < h.width ∧ 0 < h.height := by
  intro h hh
  simp only [loadArticleHotspotsMap] at hh
  rw [List.mem_mergeSort] at hh
  rcases foldl_processArticle_mem pageNumberMap articles (fun _ => []) page h hh with
    hnil | hpos
  · exact absurd hnil (List.not_mem_nil h)
  · exact hpos

/-- C9 witness: the filtering statement applied to a concrete article list
(one half-size hotspot on page 1). -/
theorem loadArticleHotspots_filters_nonpositive_witness :
    0 < (⟨"a1", "T", 1/4, 1/4, 1/2, 1/2, 1⟩ : ArticleHotspot).width ∧
    0 < (⟨"a1", "T", 1/4, 1/4, 1/2, 1/2, 1⟩ : ArticleHotspot).height :=
  loadArticleHotspots_filters_nonpositive []
    [⟨"a1", "T", some 1, some (1/4), some (1/4), some (1/2), some (1/2), none⟩] 1
    ⟨"a1", "T", 1/4, 1/4, 1/2, 1/2, 1⟩
    (by norm_num [loadArticleHotspotsMap, processArticle, hotspotsInsert, clamp01,
        fallbackPageNumber])

/-! ### `RenderQueue` theorems -/

theorem abortCurrentController_fields (s : RQState) :
    (abortCurrentController s).workers = s.workers ∧
    (abortCurrentController s).hasCurrent = s.hasCurrent ∧
    (abortCurrentController s).queuedTask = s.queuedTask := by
  unfold abortCurrentController
  cases s.controller <;> exact ⟨rfl, rfl, rfl⟩

theorem unsettledCount_congr (s1 s2 : RQState) (h : s1.workers = s2.workers) :
    unsettledCount s1 = unsettledCount s2 := by
  simp [unsettledCount, h]

theorem unsettledCount_rqStart (t : Nat) (s : RQState) :
    unsettledCount (rqStart t s) = unsettledCount s + 1 := by
  simp [unsettledCount, rqStart, List.filter_append]

theorem filter_length_set (p : WorkerRec → Bool) :
    ∀ (l : List WorkerRec) (i : Nat) (w w' : WorkerRec),
      l.get? i = some w → p w = true → p w' = false →
      ((l.set i w').filter p).length + 1 = (l.filter p).length := by
  intro l
  induction l with
  | nil =>
      intro i w w' hget
      simp [List.get?] at hget
  | cons e l ih =>
      intro i w w' hget hpw hpw'
      cases i with
      | zero =>
          simp only [List.get?] at hget
          injection hget with he
          subst he
          simp [List.set, List.filter, hpw, hpw']
      | succ i =>
          simp only [List.get?] at hget
          simp only [List.set]
          by_cases hpe : p e = true
          · simp only [List.filter, hpe]
            have := ih i w w' hget hpw hpw'
            simp only [List.length_cons]
            omega
          · have hpe2 : p e = false := by
              cases hb : p e
              · rfl
              · exact absurd hb hpe
            simp only [List.filter, hpe2]
            exact ih i w w' hget hpw hpw'

theorem unsettled_mem_pos (s : RQState) (i : Nat) (w : WorkerRec)
    (hget : s.workers.get? i = some w) (hw : w.settled = false) :
    0 < unsettledCount s := by
  have hmem : w ∈ s.workers := List.get?_mem hget
  have : w ∈ s.workers.filter (fun w => !w.settled) := by
    rw [List.mem_filter]
    exact ⟨hmem, by simp [hw]⟩
  have := List.length_pos.mpr (List.ne_nil_of_mem this)
  simpa [unsettledCount] using this

/-- The two possible outcomes of a genuine settle: either nothing was queued
and the queue goes idle, or the queued task starts immediately. -/
theorem rqSettle_shape (i : Nat) (o : RenderOutcome) (s : RQState) (w : WorkerRec)
    (hget : s.workers.get? i = some w) (hw : w.settled = false) :
    (s.queuedTask = none ∧
     (rqSettle i o s).workers = s.workers.set i { w with settled := true } ∧
     (rqSettle i o s).hasCurrent = false) ∨
    (∃ next sig,
      s.queuedTask = some next ∧
      (rqSettle i o s).workers =
        s.workers.set i { w with settled := true } ++
          [{ task := next, signal := sig, settled := false }] ∧
      (rqSettle i o s).hasCurrent = true) := by
  cases hq : s.queuedTask with
  | none =>
      left
      refine ⟨rfl, ?_, ?_⟩ <;>
      · simp only [rqSettle, hget, hw, Bool.false_eq_true, if_false, hq]
        try (split <;> split <;> rfl)
        try rfl
  | some next =>
      right
      refine ⟨next, s.nextSignal, rfl, ?_, ?_⟩ <;>
      · simp only [rqSettle, hget, hw, Bool.false_eq_true, if_false, hq]
        try (split <;> split <;> rfl)
        try rfl

theorem rqStep_preserves_wf (s : RQState) (e : RQEvent) (hne : e ≠ RQEvent.cancel)
    (h : rqWellFormed s) : rqWellFormed (rqStep s e) := by
  cases e with
  | cancel => exact absurd rfl hne
  | enq t =>
      simp only [rqStep, rqEnqueue]
      by_cases hc : s.hasCurrent = true
      · rw [if_pos hc]
        have hw := (abortCurrentController_fields s).1
        constructor
        · intro _
          have : unsettledCount { abortCurrentController s with queuedTask := some t }
              = unsettledCount s := by
            apply unsettledCount_congr
            exact hw
          rw [this]
          exact h.1 hc
        · intro hfalse
          simp only [(abortCurrentController_fields s).2.1] at hfalse
          rw [hc] at hfalse
          cases hfalse
      · rw [if_neg hc]
        have hc2 : s.hasCurrent = false := by
          cases hb : s.hasCurrent
          · rfl
          · exact absurd hb hc
        constructor
        · intro _
          rw [unsettledCount_rqStart, h.2 hc2]
        · intro hfalse
          simp [rqStart] at hfalse
  | settle i o =>
      simp only [rqStep]
      cases hget : s.workers.get? i with
      | none =>
          simp only [rqSettle, hget]
          exact h
      | some w =>
          by_cases hw : w.settled = true
          · simp only [rqSettle, hget, hw]
            simpa using h
          · have hw2 : w.settled = false := by
              cases hb : w.settled
              · rfl
              · exact absurd hb hw
            have hcur : s.hasCurrent = true := by
              cases hb : s.hasCurrent
              · exact absurd (h.2 hb) (by
                  have := unsettled_mem_pos s i w hget hw2
                  omega)
              · rfl
            have hone : unsettledCount s = 1 := h.1 hcur
            have hset : ((s.workers.set i { w with settled := true }).filter
                (fun w => !w.settled)).length + 1 =
                (s.workers.filter (fun w => !w.settled)).length :=
              filter_length_set _ s.workers i w _ hget (by simp [hw2]) (by simp)
            rcases rqSettle_shape i o s w hget hw2 with
              ⟨_, hworkers, hcur2⟩ | ⟨next, sig, _, hworkers, hcur2⟩
            · constructor
              · intro habs
                rw [hcur2] at habs
                cases habs
              · intro _
                have : unsettledCount (rqSettle i o s) =
                    ((s.workers.set i { w with settled := true }).filter
                      (fun w => !w.settled)).length := by
                  simp [unsettledCount, hworkers]
                rw [this]
                have : unsettledCount s =
                    (s.workers.filter (fun w => !w.settled)).length := rfl
                omega
            · constructor
              · intro _
                have : unsettledCount (rqSettle i o s) =
                    ((s.workers.set i { w with settled := true }).filter
                      (fun w => !w.settled)).length + 1 := by
                  simp [unsettledCount, hworkers, List.filter_append]
                rw [this]
                have : unsettledCount s =
                    (s.workers.filter (fun w => !w.settled)).length := rfl
                omega
              · intro habs
                rw [hcur2] at habs
                cases habs

theorem rqRun_wf (events : List RQEvent)
    (hnc : ∀ e ∈ events, e ≠ RQEvent.cancel) : rqWellFormed (rqRun events) := by
  suffices h : ∀ (s : RQState), rqWellFormed s →
      rqWellFormed (events.foldl rqStep s) by
    apply h
    constructor
    · intro habs
      cases habs
    · intro _
      rfl
  induction events with
  | nil => intro s hs; exact hs
  | cons e es ih =>
      intro s hs
      simp only [List.foldl_cons]
      apply fun hs2 => ih (fun e2 he2 => hnc e2 (List.mem_cons_of_mem _ he2)) (rqStep s e) hs2
      exact rqStep_preserves_wf s e (hnc e (List.mem_cons_self _ _)) hs

/-- C1 counterexample: the claimed invariant quantifies over every sequence
of `enqueue` and `cancel` calls, but an external `cancel` while a worker is
in flight desynchronises the queue's bookkeeping.  After
`enqueue 1; cancel; enqueue 2; (worker 1's promise settles); enqueue 3`
two workers are simultaneously started and unsettled, and neither has been
asked to cancel. -/
theorem renderQueue_two_in_flight_counterexample :
    unsettledCount
        (rqRun [.enq 1, .cancel, .enq 2, .settle 0 .abortErr, .enq 3]) = 2 ∧
    activeCount
        (rqRun [.enq 1, .cancel, .enq 2, .settle 0 .abortErr, .enq 3]) = 2 := by
  constructor
  · rfl
  · rfl

/-- C1 (amended): for every sequence of `enqueue` calls (no external `cancel`
interleaved with an in-flight worker), at most one render task is in flight
at any time; and an `enqueue` performed while a task is in flight replaces
any previously queued-but-not-started task with the new one (last writer
wins), starts no new worker, and requests cancellation of the in-flight
task's signal. -/
theorem renderQueue_single_flight (events : List RQEvent)
    (hnc : ∀ e ∈ events, e ≠ RQEvent.cancel) :
    unsettledCount (rqRun events) ≤ 1 ∧
    (∀ (s : RQState) (t : Nat), s.hasCurrent = true →
      (rqEnqueue t s).queuedTask = some t ∧
      (rqEnqueue t s).workers = s.workers ∧
      ∀ c, s.controller = some c → c ∈ (rqEnqueue t s).abortedSignals) := by
  constructor
  · have h := rqRun_wf events hnc
    cases hb : (rqRun events).hasCurrent
    · rw [h.2 hb]
      omega
    · rw [h.1 hb]
  · intro s t hc
    unfold rqEnqueue
    rw [if_pos hc]
    refine ⟨rfl, (abortCurrentController_fields s).1, ?_⟩
    intro c hctrl
    simp [abortCurrentController, hctrl]

/-- C1 witness: the amended statement at the concrete two-`enqueue` trace and
at a concrete in-flight state. -/
theorem renderQueue_single_flight_witness :
    unsettledCount (rqRun [.enq 1, .enq 2]) ≤ 1 ∧
    (rqEnqueue 2 (rqRun [.enq 1])).queuedTask = some 2 := by
  have h := renderQueue_single_flight [.enq 1, .enq 2] (by
    intro e he
    fin_cases he <;> decide)
  refine ⟨h.1, ?_⟩
  have h2 := renderQueue_single_flight [] (by intro e he; cases he)
  exact (h2.2 (rqRun [.enq 1]) 2 rfl).1

/-- C2: when plan `P1` is enqueued and plan `P2` is enqueued before `P1`'s
worker settles, `P1`'s worker runs under an aborted signal, so its success
completion handler never fires; once both workers settle, exactly `P2`'s
render completes (whatever the individual outcomes, `P1` never completes,
and when `P2`'s worker succeeds the completion list is exactly `[P2]`). -/
theorem renderQueue_cancellation_correct (p1 p2 : Nat) (hne : p1 ≠ p2)
    (o1 o2 : RenderOutcome) :
    p1 ∉ (rqRun [.enq p1, .enq p2, .settle 0 o1, .settle 1 o2]).completions ∧
    (o2 = .success →
      (rqRun [.enq p1, .enq p2, .settle 0 o1, .settle 1 o2]).completions = [p2]) := by
  cases o1 <;> cases o2 <;>
    simp [rqRun, rqStep, rqEnqueue, rqStart, rqSettle, abortCurrentController,
      RQState.init, List.get?, hne]

/-- C2 witness: the statement at plans 1 and 2 with both workers settling
successfully. -/
theorem renderQueue_cancellation_correct_witness :
    (1 : Nat) ∉
      (rqRun [.enq 1, .enq 2, .settle 0 .success, .settle 1 .success]).completions ∧
    (rqRun [.enq 1, .enq 2, .settle 0 .success, .settle 1 .success]).completions
      = [2] := by
  have h := renderQueue_cancellation_correct 1 2 (by decide) .success .success
  exact ⟨h.1, h.2 rfl⟩

/-! ### Duplicate-render suppression theorems -/

theorem renderPageModel_sets_fingerprint (plan : RenderPlan) (dpr : ℚ)
    (m : RenderModel) :
    (renderPageModel plan dpr m).lastRenderFingerprint =
      some (createPlanFingerprint plan) := by
  unfold renderPageModel
  by_cases h : m.lastRenderFingerprint = some (createPlanFingerprint plan)
  · rw [if_pos h]
    exact h
  · rw [if_neg h]
    cases hget : renderCacheGet (createPlanFingerprint plan) m.cache with
    | mk fst snd =>
        cases fst with
        | none => simp [performAndComplete]
        | some cached =>
            dsimp only
            by_cases hd : |cached.dpr - dpr| < 1 / 20
            · rw [if_pos hd]
            · rw [if_neg hd]
              simp [performAndComplete]

theorem renderPageModel_noop (plan : RenderPlan) (dpr : ℚ) (m : RenderModel)
    (h : m.lastRenderFingerprint = some (createPlanFingerprint plan)) :
    renderPageModel plan dpr m = m := by
  unfold renderPageModel
  rw [if_pos h]

/-- C5: rendering the same plan twice performs the native drawing work
(`performRenderTask`: decode + composite + watermark) at most once.  The
second call is a no-op (suppressed by the recorded last-rendered
fingerprint); from a state that has neither rendered the plan last nor
cached it, the pair of calls does exactly one unit of native work; and a
call whose plan is found in the `RenderCache` with the device pixel ratio
matching within the 0.05 tolerance does no native work at all (it is served
from the cached bitmap). -/
theorem renderPage_duplicate_suppressed (m : RenderModel) (plan : RenderPlan)
    (dpr : ℚ) :
    renderPageModel plan dpr (renderPageModel plan dpr m) =
      renderPageModel plan dpr m ∧
    (renderPageModel plan dpr m).nativeRenders ≤ m.nativeRenders + 1 ∧
    (m.lastRenderFingerprint ≠ some (createPlanFingerprint plan) →
      (renderCacheGet (createPlanFingerprint plan) m.cache).1 = none →
      (renderPageModel plan dpr (renderPageModel plan dpr m)).nativeRenders =
        m.nativeRenders + 1) ∧
    (∀ cached : CachedRender,
      m.lastRenderFingerprint ≠ some (createPlanFingerprint plan) →
      (renderCacheGet (createPlanFingerprint plan) m.cache).1 = some cached →
      |cached.dpr - dpr| < 1 / 20 →
      (renderPageModel plan dpr m).nativeRenders = m.nativeRenders) := by
  have hidem : renderPageModel plan dpr (renderPageModel plan dpr m) =
      renderPageModel plan dpr m :=
    renderPageModel_noop plan dpr _ (renderPageModel_sets_fingerprint plan dpr m)
  refine ⟨hidem, ?_, ?_, ?_⟩
  · unfold renderPageModel
    by_cases h : m.lastRenderFingerprint = some (createPlanFingerprint plan)
    · rw [if_pos h]
      omega
    · rw [if_neg h]
      cases hget : renderCacheGet (createPlanFingerprint plan) m.cache with
      | mk fst snd =>
          cases fst with
          | none => simp [performAndComplete]
          | some cached =>
              dsimp only
              by_cases hd : |cached.dpr - dpr| < 1 / 20
              · rw [if_pos hd]
                simp
              · rw [if_neg hd]
                simp [performAndComplete]
  · intro hfp hnone
    rw [hidem]
    unfold renderPageModel
    rw [if_neg hfp]
    cases hget : renderCacheGet (createPlanFingerprint plan) m.cache with
    | mk fst snd =>
        rw [hget] at hnone
        simp only at hnone
        subst hnone
        simp [performAndComplete]
  · intro cached hfp hsome hd
    unfold renderPageModel
    rw [if_neg hfp]
    cases hget : renderCacheGet (createPlanFingerprint plan) m.cache with
    | mk fst snd =>
        rw [hget] at hsome
        simp only at hsome
        subst hsome
        dsimp only
        rw [if_pos hd]

/-- C5 witness: from a fresh model, rendering one concrete plan twice does
exactly one unit of native drawing work. -/
theorem renderPage_duplicate_suppressed_witness :
    (renderPageModel ⟨1, 0, 1, 100, 100, [1]⟩ 1
      (renderPageModel ⟨1, 0, 1, 100, 100, [1]⟩ 1
        ⟨none, [], 0, false⟩)).nativeRenders = 0 + 1 :=
  (renderPage_duplicate_suppressed ⟨none, [], 0, false⟩ ⟨1, 0, 1, 100, 100, [1]⟩
      1).2.2.1 (by simp) rfl

end LenqReader
